import Mathlib

/-!
Verification of the zela-demo geo-routing core against its specification.

The development shallow-embeds the Rust sources:
- `src/geo-mapper/src/db.rs` / `src/geo-mapper/src/main.rs` (map building and
  `write_binary_map` encoding),
- `src/procedure/src/lib.rs` (`lookup_geo_bucket` binary search, region
  selection, FNV-1a fallback, leader selection),
- `src/geo-rules/src/lib.rs` (bucket classification).

Machine bytes are modelled as `Nat` (with explicit `% 2 ^ 64` where the Rust
code relies on wrapping arithmetic), byte strings as `List Nat`, and Rust
`Option`/`Result` as `Option`/`Except`.
-/

namespace ZelaDemo

/-- The five geo buckets of `GeoBucket` in `src/geo-rules/src/lib.rs` (and the
identical enums in `db.rs` / `main.rs`): `Unknown=0, Eu=1, Na=2, Apac=3, Me=4`. -/
inductive GeoBucket where
  | Unknown
  | Eu
  | Na
  | Apac
  | Me
  deriving DecidableEq, Repr

/-- `GeoBucket::as_u8`: the discriminant byte of a bucket. -/
def GeoBucket.asU8 : GeoBucket → Nat
  | .Unknown => 0
  | .Eu => 1
  | .Na => 2
  | .Apac => 3
  | .Me => 4

/-- The four server regions of `ServerRegion` in `src/procedure/src/lib.rs`
(`Region` in `src/geo-rules/src/lib.rs`). -/
inductive ServerRegion where
  | Dubai
  | Frankfurt
  | NewYork
  | Tokyo
  deriving DecidableEq, Repr

/-- Lexicographic comparison of byte slices, as Rust's `Ord` on `&[u8]`
(`key.cmp(leader_pubkey)` in `lookup_geo_bucket`). -/
def cmpBytes : List Nat → List Nat → Ordering
  | [], [] => .eq
  | [], _ :: _ => .lt
  | _ :: _, [] => .gt
  | a :: as, b :: bs =>
    if a < b then .lt else if b < a then .gt else cmpBytes as bs

/-- `write_binary_map` (src/geo-mapper/src/db.rs:41-57, identically
src/geo-mapper/src/main.rs:405-421): for each entry of the ordered map, in
iteration order, append the 32 key bytes then push the bucket byte.  The
`BTreeMap` iteration order is ascending key order; here the map is given as
the association list in that iteration order. -/
def encodeMap : List (List Nat × GeoBucket) → List Nat
  | [] => []
  | (key, bucket) :: rest => key ++ bucket.asU8 :: encodeMap rest

/-- The binary-search `while left < right` loop of `lookup_geo_bucket`
(src/procedure/src/lib.rs:154-175), with an explicit fuel parameter to make
the function structurally recursive. `lgbLoop_fuel_independent` shows that any
fuel at least `right - left` gives the same result, so the loop embedded here
terminates on every input with the fuel `lookupGeoBucket` supplies. -/
def lgbLoop (geoMap key : List Nat) : Nat → Nat → Nat → Option Nat
  | 0, _, _ => none
  | fuel + 1, left, right =>
    if left < right then
      let mid := left + (right - left) / 2
      let offset := mid * 33
      match cmpBytes ((geoMap.drop offset).take 32) key with
      | .lt => lgbLoop geoMap key fuel (mid + 1) right
      | .gt => lgbLoop geoMap key fuel left mid
      | .eq => geoMap[offset + 32]?
    else none

/-- `lookup_geo_bucket` (src/procedure/src/lib.rs:154-175): reject blobs whose
length is not a multiple of `LEADER_GEO_RECORD_SIZE = 33`, then binary-search
the `len / 33` records. -/
def lookupGeoBucket (geoMap key : List Nat) : Option Nat :=
  if geoMap.length % 33 = 0 then
    lgbLoop geoMap key (geoMap.length / 33) 0 (geoMap.length / 33)
  else
    none

/-! ### Basic properties of `cmpBytes` -/

theorem cmpBytes_eq_iff : ∀ {a b : List Nat}, cmpBytes a b = .eq ↔ a = b := by
  intro a
  induction a with
  | nil => intro b; cases b <;> simp [cmpBytes]
  | cons x xs ih =>
    intro b
    cases b with
    | nil => simp [cmpBytes]
    | cons y ys =>
      by_cases hxy : x < y
      · simp [cmpBytes, hxy]
        omega
      · by_cases hyx : y < x
        · simp [cmpBytes, hxy, hyx]
          omega
        · have hxyeq : x = y := by omega
          simp [cmpBytes, hxy, hyx, hxyeq, ih]

theorem cmpBytes_refl (a : List Nat) : cmpBytes a a = .eq :=
  cmpBytes_eq_iff.mpr rfl

theorem cmpBytes_gt_iff_lt : ∀ {a b : List Nat}, cmpBytes a b = .gt ↔ cmpBytes b a = .lt := by
  intro a
  induction a with
  | nil => intro b; cases b <;> simp [cmpBytes]
  | cons x xs ih =>
    intro b
    cases b with
    | nil => simp [cmpBytes]
    | cons y ys =>
      by_cases hxy : x < y
      · have : ¬ y < x := by omega
        simp [cmpBytes, hxy, this]
      · by_cases hyx : y < x
        · simp [cmpBytes, hxy, hyx]
        · simp [cmpBytes, hxy, hyx, ih]

theorem cmpBytes_lt_trans :
    ∀ {a b c : List Nat}, cmpBytes a b = .lt → cmpBytes b c = .lt → cmpBytes a c = .lt := by
  intro a
  induction a with
  | nil =>
    intro b c hab hbc
    cases b with
    | nil => exact hbc
    | cons y ys =>
      cases c with
      | nil => simp [cmpBytes] at hbc
      | cons z zs => simp [cmpBytes]
  | cons x xs ih =>
    intro b c hab hbc
    cases b with
    | nil => simp [cmpBytes] at hab
    | cons y ys =>
      cases c with
      | nil => simp [cmpBytes] at hbc
      | cons z zs =>
        simp only [cmpBytes] at hab hbc ⊢
        by_cases hxy : x < y
        · by_cases hyz : y < z
          · have hxz : x < z := by omega
            simp [hxz]
          · by_cases hzy : z < y
            · simp [hyz, hzy] at hbc
            · have hyzeq : y = z := by omega
              subst hyzeq
              simp [hxy]
        · by_cases hyx : y < x
          · simp [hxy, hyx] at hab
          · have hxyeq : x = y := by omega
            subst hxyeq
            simp only [hxy, if_neg, lt_irrefl, if_false] at hab
            by_cases hyz : x < z
            · simp [hyz]
            · by_cases hzy : z < x
              · simp [hyz, hzy] at hbc
              · have : x = z := by omega
                subst this
                simp only [lt_irrefl, if_false] at hbc ⊢
                exact ih hab hbc

theorem cmpBytes_lt_ne {a b : List Nat} (h : cmpBytes a b = .lt) : a ≠ b := by
  intro heq
  subst heq
  rw [cmpBytes_refl a] at h
  exact Ordering.noConfusion h

/-! ### Layout of the encoded blob -/

theorem encodeMap_cons (e : List Nat × GeoBucket) (rest : List (List Nat × GeoBucket)) :
    encodeMap (e :: rest) = e.1 ++ e.2.asU8 :: encodeMap rest := by
  cases e
  rfl

theorem encodeMap_length (entries : List (List Nat × GeoBucket))
    (h32 : ∀ e ∈ entries, e.1.length = 32) :
    (encodeMap entries).length = 33 * entries.length := by
  induction entries with
  | nil => simp [encodeMap]
  | cons e rest ih =>
    have hk : e.1.length = 32 := h32 e (List.mem_cons_self e rest)
    have ihr := ih (fun x hx => h32 x (List.mem_cons_of_mem e hx))
    rw [encodeMap_cons]
    simp only [List.length_append, List.length_cons]
    omega

theorem encodeMap_drop (entries : List (List Nat × GeoBucket))
    (h32 : ∀ e ∈ entries, e.1.length = 32) :
    ∀ i, i ≤ entries.length →
      (encodeMap entries).drop (i * 33) = encodeMap (entries.drop i) := by
  induction entries with
  | nil =>
    intro i hi
    have h0 : i = 0 := by simpa using hi
    subst h0
    simp
  | cons e rest ih =>
    intro i hi
    cases i with
    | zero => simp
    | succ j =>
      have hk : e.1.length = 32 := h32 e (List.mem_cons_self e rest)
      have hrest : ∀ x ∈ rest, x.1.length = 32 :=
        fun x hx => h32 x (List.mem_cons_of_mem e hx)
      have hj : j ≤ rest.length := by
        simp only [List.length_cons] at hi
        omega
      have hdrop33 : (encodeMap (e :: rest)).drop 33 = encodeMap rest := by
        rw [encodeMap_cons]
        have h33 : (33 : Nat) = e.1.length + 1 := by omega
        rw [h33, ← List.drop_drop]
        rw [List.drop_left]
        rfl
      calc (encodeMap (e :: rest)).drop ((j + 1) * 33)
          = ((encodeMap (e :: rest)).drop 33).drop (j * 33) := by
            rw [List.drop_drop]
            congr 1
            ring
        _ = (encodeMap rest).drop (j * 33) := by rw [hdrop33]
        _ = encodeMap (rest.drop j) := ih hrest j hj
        _ = encodeMap ((e :: rest).drop (j + 1)) := by simp

theorem encodeMap_key_at (entries : List (List Nat × GeoBucket))
    (h32 : ∀ e ∈ entries, e.1.length = 32) (i : Nat) (hi : i < entries.length) :
    ((encodeMap entries).drop (i * 33)).take 32 = (entries.get ⟨i, hi⟩).1 := by
  rw [List.get_eq_getElem]
  rw [encodeMap_drop entries h32 i (Nat.le_of_lt hi)]
  rw [List.drop_eq_getElem_cons hi, encodeMap_cons]
  have hk : entries[i].1.length = 32 := h32 entries[i] (List.getElem_mem hi)
  rw [List.take_left' hk]

theorem encodeMap_bucket_at (entries : List (List Nat × GeoBucket))
    (h32 : ∀ e ∈ entries, e.1.length = 32) (i : Nat) (hi : i < entries.length) :
    (encodeMap entries)[i * 33 + 32]? = some (entries.get ⟨i, hi⟩).2.asU8 := by
  rw [List.get_eq_getElem]
  have hsplit : (encodeMap entries)[i * 33 + 32]? =
      ((encodeMap entries).drop (i * 33))[32]? := by
    rw [List.getElem?_drop]
  rw [hsplit, encodeMap_drop entries h32 i (Nat.le_of_lt hi)]
  rw [List.drop_eq_getElem_cons hi, encodeMap_cons]
  have hk : entries[i].1.length = 32 := h32 entries[i] (List.getElem_mem hi)
  rw [List.getElem?_append_right (by omega)]
  simp [hk]

/-! ### The binary-search loop -/

theorem lgbLoop_fuel_independent (geoMap key : List Nat) :
    ∀ fuel₁ fuel₂ left right, right - left ≤ fuel₁ → right - left ≤ fuel₂ →
      lgbLoop geoMap key fuel₁ left right = lgbLoop geoMap key fuel₂ left right := by
  intro fuel₁
  induction fuel₁ with
  | zero =>
    intro fuel₂ left right h1 h2
    have hlr : ¬ left < right := by omega
    cases fuel₂ <;> simp [lgbLoop, hlr]
  | succ f ih =>
    intro fuel₂ left right h1 h2
    cases fuel₂ with
    | zero =>
      have hlr : ¬ left < right := by omega
      simp [lgbLoop, hlr]
    | succ g =>
      by_cases hlr : left < right
      · simp only [lgbLoop, if_pos hlr]
        cases cmpBytes ((geoMap.drop ((left + (right - left) / 2) * 33)).take 32) key with
        | lt => exact ih g (left + (right - left) / 2 + 1) right (by omega) (by omega)
        | gt => exact ih g left (left + (right - left) / 2) (by omega) (by omega)
        | eq => rfl
      · simp [lgbLoop, hlr]

/-- `List.find?` returns the element at index `i` when everything before `i`
fails the predicate and index `i` satisfies it. -/
theorem find?_eq_some_of_first {α : Type} (p : α → Bool) :
    ∀ (l : List α) (i : Nat) (hi : i < l.length),
      (∀ j (hj : j < l.length), j < i → p (l.get ⟨j, hj⟩) = false) →
      p (l.get ⟨i, hi⟩) = true → l.find? p = some (l.get ⟨i, hi⟩) := by
  intro l
  induction l with
  | nil => intro i hi; simp at hi
  | cons x xs ih =>
    intro i hi hbefore hp
    cases i with
    | zero =>
      simp only [List.get] at hp
      rw [List.find?_cons_of_pos _ hp]
      rfl
    | succ k =>
      have hx : p x = false := hbefore 0 (by simp) (by omega)
      rw [List.find?_cons_of_neg _ (by simp [hx])]
      have hk : k < xs.length := by
        simp only [List.length_cons] at hi
        omega
      have hbefore2 : ∀ j (hj : j < xs.length), j < k → p (xs.get ⟨j, hj⟩) = false := by
        intro j hj hjk
        have := hbefore (j + 1) (by simp; omega) (by omega)
        simpa [List.get] using this
      have hp2 : p (xs.get ⟨k, hk⟩) = true := by simpa [List.get] using hp
      exact ih k hk hbefore2 hp2

/-- Boolean check that consecutive keys strictly increase in unsigned
lexicographic byte order. -/
def sortedByKeyB : List (List Nat × GeoBucket) → Bool
  | [] => true
  | [_] => true
  | a :: b :: rest =>
    (cmpBytes a.1 b.1 == Ordering.lt) && sortedByKeyB (b :: rest)

/-- The sortedness invariant of a `BTreeMap<[u8; 32], GeoBucket>` snapshot:
consecutive keys strictly increase in unsigned lexicographic byte order. -/
def sortedByKey (entries : List (List Nat × GeoBucket)) : Prop :=
  sortedByKeyB entries = true

instance : DecidablePred sortedByKey := fun entries =>
  inferInstanceAs (Decidable (sortedByKeyB entries = true))

instance : IsTrans (List Nat × GeoBucket) (fun a b => cmpBytes a.1 b.1 = Ordering.lt) :=
  ⟨fun _ _ _ hab hbc => cmpBytes_lt_trans hab hbc⟩

theorem ordering_beq_iff (o p : Ordering) : (o == p) = true ↔ o = p := by
  cases o <;> cases p <;> decide

theorem sortedByKey_iff_chain' :
    ∀ entries : List (List Nat × GeoBucket),
      sortedByKey entries ↔
        List.Chain' (fun a b => cmpBytes a.1 b.1 = Ordering.lt) entries := by
  intro entries
  induction entries with
  | nil => simp [sortedByKey, sortedByKeyB]
  | cons a rest ih =>
    cases rest with
    | nil => simp [sortedByKey, sortedByKeyB]
    | cons b rest2 =>
      simp only [sortedByKey, sortedByKeyB, Bool.and_eq_true, beq_iff_eq,
        List.chain'_cons] at *
      rw [ih, and_congr_left_iff]
      intro _
      exact ordering_beq_iff _ _

theorem sorted_get_lt (entries : List (List Nat × GeoBucket)) (hs : sortedByKey entries)
    {i j : Nat} (hi : i < entries.length) (hj : j < entries.length) (hij : i < j) :
    cmpBytes (entries.get ⟨i, hi⟩).1 (entries.get ⟨j, hj⟩).1 = Ordering.lt := by
  have hp := List.chain'_iff_pairwise.mp ((sortedByKey_iff_chain' entries).mp hs)
  rw [List.pairwise_iff_getElem] at hp
  simpa [List.get_eq_getElem] using hp i j hi hj hij

/-- If the whole index range is excluded by the loop invariants, the key is
absent from the entries. -/
theorem find?_none_of_outside (entries : List (List Nat × GeoBucket)) (key : List Nat)
    (left right : Nat) (hcov : right ≤ left)
    (hlt : ∀ i (hilen : i < entries.length), i < left →
      cmpBytes (entries.get ⟨i, hilen⟩).1 key = Ordering.lt)
    (hgt : ∀ i (hilen : i < entries.length), right ≤ i →
      cmpBytes (entries.get ⟨i, hilen⟩).1 key = Ordering.gt) :
    entries.find? (fun e => e.1 == key) = none := by
  rw [List.find?_eq_none]
  intro e he
  obtain ⟨⟨i, hilen⟩, rfl⟩ := List.mem_iff_get.mp he
  simp only [beq_iff_eq]
  by_cases hi : i < left
  · exact cmpBytes_lt_ne (hlt i hilen hi)
  · have hgi : cmpBytes (entries.get ⟨i, hilen⟩).1 key = Ordering.gt :=
      hgt i hilen (by omega)
    have : cmpBytes key (entries.get ⟨i, hilen⟩).1 = Ordering.lt :=
      cmpBytes_gt_iff_lt.mp hgi
    intro heq
    exact cmpBytes_lt_ne this heq.symm

/-- Correctness of the binary-search loop over an encoded, sorted map:
under the standard interval invariants it finds exactly the bucket byte
associated with the queried key. -/
theorem lgbLoop_encodeMap (entries : List (List Nat × GeoBucket)) (key : List Nat)
    (h32 : ∀ e ∈ entries, e.1.length = 32) (hs : sortedByKey entries) :
    ∀ fuel left right, right ≤ entries.length → right - left ≤ fuel →
      (∀ i (hilen : i < entries.length), i < left →
        cmpBytes (entries.get ⟨i, hilen⟩).1 key = Ordering.lt) →
      (∀ i (hilen : i < entries.length), right ≤ i →
        cmpBytes (entries.get ⟨i, hilen⟩).1 key = Ordering.gt) →
      lgbLoop (encodeMap entries) key fuel left right =
        (entries.find? (fun e => e.1 == key)).map (fun e => e.2.asU8) := by
  intro fuel
  induction fuel with
  | zero =>
    intro left right hrlen hfuel hlt hgt
    rw [find?_none_of_outside entries key left right (by omega) hlt hgt]
    rfl
  | succ f ih =>
    intro left right hrlen hfuel hlt hgt
    by_cases hlr : left < right
    · have hmidr : left + (right - left) / 2 < right := by omega
      have hmidlen : left + (right - left) / 2 < entries.length := by omega
      simp only [lgbLoop, if_pos hlr]
      rw [encodeMap_key_at entries h32 (left + (right - left) / 2) hmidlen]
      cases hcmp : cmpBytes (entries.get ⟨left + (right - left) / 2, hmidlen⟩).1 key with
      | lt =>
        apply ih (left + (right - left) / 2 + 1) right hrlen (by omega)
        · intro i hilen himid
          by_cases hil : i < left
          · exact hlt i hilen hil
          · by_cases hieq : i = left + (right - left) / 2
            · subst hieq; exact hcmp
            · have hlti : i < left + (right - left) / 2 := by omega
              exact cmpBytes_lt_trans (sorted_get_lt entries hs hilen hmidlen hlti) hcmp
        · exact hgt
      | gt =>
        apply ih left (left + (right - left) / 2) (by omega) (by omega)
        · exact hlt
        · intro i hilen himid
          by_cases hieq : i = left + (right - left) / 2
          · subst hieq; exact hcmp
          · have hmidi : left + (right - left) / 2 < i := by omega
            have h1 : cmpBytes key (entries.get ⟨left + (right - left) / 2, hmidlen⟩).1 =
                Ordering.lt := cmpBytes_gt_iff_lt.mp hcmp
            have h2 := sorted_get_lt entries hs hmidlen hilen hmidi
            exact cmpBytes_gt_iff_lt.mpr (cmpBytes_lt_trans h1 h2)
      | eq =>
        have hkey : (entries.get ⟨left + (right - left) / 2, hmidlen⟩).1 = key :=
          cmpBytes_eq_iff.mp hcmp
        rw [encodeMap_bucket_at entries h32 (left + (right - left) / 2) hmidlen]
        have hfind : entries.find? (fun e => e.1 == key) =
            some (entries.get ⟨left + (right - left) / 2, hmidlen⟩) := by
          apply find?_eq_some_of_first
          · intro j hj hjmid
            simp only [beq_eq_false_iff_ne, ne_eq]
            by_cases hjl : j < left
            · exact cmpBytes_lt_ne (hlt j hj hjl)
            · have hjlt : cmpBytes (entries.get ⟨j, hj⟩).1 key = Ordering.lt :=
                hkey ▸ sorted_get_lt entries hs hj hmidlen hjmid
              exact cmpBytes_lt_ne hjlt
          · simpa [beq_iff_eq, List.get_eq_getElem] using hkey
        rw [hfind]
        rfl
    · simp only [lgbLoop, if_neg hlr]
      rw [find?_none_of_outside entries key left right (by omega) hlt hgt]
      rfl

/-! ### Claims C1, C2, C3 -/

/-- C1: for every finite map of (32-byte key, bucket) pairs with unique keys
(given as its ascending-key association list, the `BTreeMap` iteration order),
encoding with the `write_binary_map` record layout and then querying the blob
with `lookup_geo_bucket` returns the exact bucket byte for every key present
in the map and `none` for every key absent from it. -/
theorem encode_lookup_roundtrip (entries : List (List Nat × GeoBucket)) (key : List Nat)
    (h32 : ∀ e ∈ entries, e.1.length = 32) (_hkey : key.length = 32)
    (hs : sortedByKey entries) :
    (∀ b : GeoBucket, (key, b) ∈ entries →
      lookupGeoBucket (encodeMap entries) key = some b.asU8)
    ∧ (key ∉ entries.map Prod.fst → lookupGeoBucket (encodeMap entries) key = none) := by
  have hlen := encodeMap_length entries h32
  have hmod : (encodeMap entries).length % 33 = 0 := by omega
  have hdiv : (encodeMap entries).length / 33 = entries.length := by omega
  have hunfold : lookupGeoBucket (encodeMap entries) key =
      lgbLoop (encodeMap entries) key entries.length 0 entries.length := by
    simp only [lookupGeoBucket]
    rw [if_pos hmod, hdiv]
  have hloop := lgbLoop_encodeMap entries key h32 hs entries.length 0 entries.length
    le_rfl (by omega)
    (fun i hilen hi0 => absurd hi0 (Nat.not_lt_zero i))
    (fun i hilen hge => absurd hilen (by omega))
  constructor
  · intro b hmem
    obtain ⟨⟨i, hilen⟩, hget⟩ := List.mem_iff_get.mp hmem
    have hfind : entries.find? (fun e => e.1 == key) = some (entries.get ⟨i, hilen⟩) := by
      apply find?_eq_some_of_first
      · intro j hj hji
        simp only [beq_eq_false_iff_ne, ne_eq]
        have hjlt : cmpBytes (entries.get ⟨j, hj⟩).1 (entries.get ⟨i, hilen⟩).1 =
            Ordering.lt := sorted_get_lt entries hs hj hilen hji
        rw [hget] at hjlt
        exact cmpBytes_lt_ne hjlt
      · rw [hget]
        simp
    rw [hunfold, hloop, hfind, hget]
    rfl
  · intro habsent
    have hfind : entries.find? (fun e => e.1 == key) = none := by
      rw [List.find?_eq_none]
      intro e he
      simp only [beq_iff_eq]
      intro heq
      exact habsent (heq ▸ List.mem_map_of_mem Prod.fst he)
    rw [hunfold, hloop, hfind]
    rfl

/-- Concrete two-entry map used to witness the claims about the codec. -/
def demoEntries : List (List Nat × GeoBucket) :=
  [(List.replicate 32 0, GeoBucket.Eu), (List.replicate 32 1, GeoBucket.Na)]

/-- Witness for C1 at a concrete encoded map: the present key `0…0` resolves
to bucket byte 1 (`Eu`) and the absent key `2…2` resolves to `none`. -/
theorem encode_lookup_roundtrip_witness :
    (List.replicate 32 0, GeoBucket.Eu) ∈ demoEntries
    ∧ lookupGeoBucket (encodeMap demoEntries) (List.replicate 32 0) =
        some GeoBucket.Eu.asU8
    ∧ (List.replicate 32 2) ∉ demoEntries.map Prod.fst
    ∧ lookupGeoBucket (encodeMap demoEntries) (List.replicate 32 2) = none :=
  ⟨by decide,
    (encode_lookup_roundtrip demoEntries (List.replicate 32 0)
      (by decide) (by decide) (by decide)).1 GeoBucket.Eu (by decide),
    by decide,
    (encode_lookup_roundtrip demoEntries (List.replicate 32 2)
      (by decide) (by decide) (by decide)).2 (by decide)⟩

/-- C2: for every blob whose length is not a multiple of 33 and every query
key, `lookup_geo_bucket` returns `none` without any further access into the
blob; the binary-search loop is insensitive to the fuel bound (so the `while`
loop it embeds terminates on every input); and on aligned blobs every byte
offset the loop touches (the 32 key bytes and the bucket byte of the probed
record) lies strictly inside the blob, so no out-of-bounds read occurs. -/
theorem lookup_malformed_blob_safe :
    (∀ geoMap key : List Nat, geoMap.length % 33 ≠ 0 → lookupGeoBucket geoMap key = none)
    ∧ (∀ (geoMap key : List Nat) (fuel₁ fuel₂ left right : Nat),
        right - left ≤ fuel₁ → right - left ≤ fuel₂ →
        lgbLoop geoMap key fuel₁ left right = lgbLoop geoMap key fuel₂ left right)
    ∧ (∀ (geoMap : List Nat) (left right : Nat),
        left < right → right ≤ geoMap.length / 33 → geoMap.length % 33 = 0 →
        (left + (right - left) / 2) * 33 + 32 < geoMap.length) := by
  refine ⟨?_, ?_, ?_⟩
  · intro geoMap key hmod
    simp only [lookupGeoBucket]
    rw [if_neg hmod]
  · intro geoMap key fuel₁ fuel₂ left right h1 h2
    exact lgbLoop_fuel_independent geoMap key fuel₁ fuel₂ left right h1 h2
  · intro geoMap left right hlr hrn hmod
    omega

/-- Witness for C2: the 3-byte blob `[1, 2, 3]` is misaligned and every lookup
against it returns `none`. -/
theorem lookup_malformed_blob_safe_witness :
    ([1, 2, 3] : List Nat).length % 33 ≠ 0
    ∧ lookupGeoBucket [1, 2, 3] (List.replicate 32 0) = none :=
  ⟨by decide, lookup_malformed_blob_safe.1 [1, 2, 3] (List.replicate 32 0) (by decide)⟩

/-- The 32-byte key slice of record `i` of a persisted blob. -/
def recordKeyAt (blob : List Nat) (i : Nat) : List Nat :=
  (blob.drop (i * 33)).take 32

/-- C3: every blob produced by `write_binary_map` from an in-memory `GeoMap`
(a `BTreeMap` snapshot: strictly ascending unique 32-byte keys) has byte
length exactly 33 times the number of entries, and the 32-byte keys of
consecutive 33-byte records are strictly increasing in unsigned lexicographic
byte order. -/
theorem write_binary_map_invariant (entries : List (List Nat × GeoBucket))
    (h32 : ∀ e ∈ entries, e.1.length = 32) (hs : sortedByKey entries) :
    (encodeMap entries).length = 33 * entries.length
    ∧ ∀ i, i + 1 < entries.length →
        cmpBytes (recordKeyAt (encodeMap entries) i) (recordKeyAt (encodeMap entries) (i + 1)) =
          Ordering.lt := by
  refine ⟨encodeMap_length entries h32, ?_⟩
  intro i hi
  have hi1 : i < entries.length := by omega
  have hkey1 : recordKeyAt (encodeMap entries) i = (entries.get ⟨i, hi1⟩).1 :=
    encodeMap_key_at entries h32 i hi1
  have hkey2 : recordKeyAt (encodeMap entries) (i + 1) = (entries.get ⟨i + 1, hi⟩).1 :=
    encodeMap_key_at entries h32 (i + 1) hi
  rw [hkey1, hkey2]
  exact sorted_get_lt entries hs hi1 hi (by omega)

/-- Witness for C3 at the concrete two-entry map. -/
theorem write_binary_map_invariant_witness :
    sortedByKey demoEntries
    ∧ (encodeMap demoEntries).length = 33 * demoEntries.length
    ∧ cmpBytes (recordKeyAt (encodeMap demoEntries) 0) (recordKeyAt (encodeMap demoEntries) 1) =
        Ordering.lt :=
  ⟨by decide,
    (write_binary_map_invariant demoEntries (by decide) (by decide)).1,
    (write_binary_map_invariant demoEntries (by decide) (by decide)).2 0 (by decide)⟩

/-! ### Claim C4: the MapBuilder merge loop -/

/-- One merge step of the loop in `run` (src/geo-mapper/src/main.rs:101-121):
`map.entry(pubkey).and_modify(|existing| if *existing == Unknown && bucket !=
Unknown { *existing = bucket }).or_insert(bucket)`. -/
def mergeStep (old : Option GeoBucket) (bucket : GeoBucket) : Option GeoBucket :=
  match old with
  | none => some bucket
  | some existing =>
    some (if existing = GeoBucket.Unknown ∧ bucket ≠ GeoBucket.Unknown then bucket else existing)

/-- The map built by the merge loop of `run` from the resolved (pubkey, bucket)
rows, as the final key-to-bucket association (the `BTreeMap` content). -/
def buildGeoMap (rows : List (List Nat × GeoBucket)) : List Nat → Option GeoBucket :=
  rows.foldl (fun m row k => if k = row.1 then mergeStep (m k) row.2 else m k) (fun _ => none)

/-- The buckets of the occurrences of key `k` among the input rows, in input
order. -/
def occurrences (rows : List (List Nat × GeoBucket)) (k : List Nat) : List GeoBucket :=
  (rows.filter (fun r => r.1 == k)).map Prod.snd

/-- Reference conflict policy: the first non-Unknown bucket resolved for the
key, `Unknown` when the key occurs but only as `Unknown`, `none` when the key
never occurs. -/
def firstResolvedBucket (rows : List (List Nat × GeoBucket)) (k : List Nat) :
    Option GeoBucket :=
  if occurrences rows k = [] then none
  else some (((occurrences rows k).find? (fun b => b != GeoBucket.Unknown)).getD
    GeoBucket.Unknown)

/-- Folding the merge step over an occurrence list. -/
def mergeRuns (old : Option GeoBucket) (occs : List GeoBucket) : Option GeoBucket :=
  occs.foldl mergeStep old

theorem buildGeoMap_eq_mergeRuns (rows : List (List Nat × GeoBucket)) :
    ∀ (m : List Nat → Option GeoBucket) (k : List Nat),
      rows.foldl (fun m row k => if k = row.1 then mergeStep (m k) row.2 else m k) m k =
        mergeRuns (m k) (occurrences rows k) := by
  induction rows with
  | nil => intro m k; rfl
  | cons r rest ih =>
    intro m k
    simp only [List.foldl_cons]
    rw [ih]
    by_cases hk : k = r.1
    · have hocc : occurrences (r :: rest) k = r.2 :: occurrences rest k := by
        simp [occurrences, List.filter_cons, hk]
      rw [hocc]
      simp only [mergeRuns, List.foldl_cons]
      simp [hk]
    · have hocc : occurrences (r :: rest) k = occurrences rest k := by
        have : (r.1 == k) = false := by
          simp only [beq_eq_false_iff_ne, ne_eq]
          exact fun h => hk h.symm
        simp [occurrences, List.filter_cons, this]
      rw [hocc]
      simp [hk]

theorem mergeRuns_some (existing : GeoBucket) (occs : List GeoBucket) :
    mergeRuns (some existing) occs =
      some (if existing ≠ GeoBucket.Unknown then existing
        else (occs.find? (fun b => b != GeoBucket.Unknown)).getD GeoBucket.Unknown) := by
  induction occs generalizing existing with
  | nil =>
    by_cases he : existing = GeoBucket.Unknown <;> simp [mergeRuns, he]
  | cons b rest ih =>
    by_cases he : existing = GeoBucket.Unknown
    · subst he
      by_cases hb : b = GeoBucket.Unknown
      · subst hb
        have hstep : mergeStep (some GeoBucket.Unknown) GeoBucket.Unknown =
            some GeoBucket.Unknown := by decide
        simp only [mergeRuns, List.foldl_cons, hstep]
        rw [show List.foldl mergeStep (some GeoBucket.Unknown) rest =
          mergeRuns (some GeoBucket.Unknown) rest from rfl]
        rw [ih GeoBucket.Unknown]
        simp [List.find?_cons]
      · have hstep : mergeStep (some GeoBucket.Unknown) b = some b := by
          simp [mergeStep, hb]
        simp only [mergeRuns, List.foldl_cons, hstep]
        rw [show List.foldl mergeStep (some b) rest = mergeRuns (some b) rest from rfl]
        rw [ih b]
        have hfind : ((b :: rest).find? (fun x => x != GeoBucket.Unknown)) = some b := by
          rw [List.find?_cons_of_pos]
          simp [hb]
        simp [hb, hfind]
    · have hstep : mergeStep (some existing) b = some existing := by
        simp [mergeStep, he]
      simp only [mergeRuns, List.foldl_cons, hstep]
      rw [show List.foldl mergeStep (some existing) rest =
        mergeRuns (some existing) rest from rfl]
      rw [ih existing]
      simp [he]

theorem buildGeoMap_eq_firstResolved (rows : List (List Nat × GeoBucket)) (k : List Nat) :
    buildGeoMap rows k = firstResolvedBucket rows k := by
  rw [buildGeoMap, buildGeoMap_eq_mergeRuns rows (fun _ => none) k]
  cases hocc : occurrences rows k with
  | nil => simp [firstResolvedBucket, hocc, mergeRuns]
  | cons b rest =>
    have hne : occurrences rows k ≠ [] := by rw [hocc]; exact List.cons_ne_nil b rest
    rw [firstResolvedBucket, if_neg hne, hocc]
    have hstart : mergeRuns none (b :: rest) = mergeRuns (some b) rest := rfl
    rw [hstart, mergeRuns_some b rest]
    by_cases hb : b = GeoBucket.Unknown
    · subst hb
      simp [List.find?_cons]
    · have hfind : ((b :: rest).find? (fun x => x != GeoBucket.Unknown)) = some b := by
        rw [List.find?_cons_of_pos]
        simp [hb]
      simp [hb, hfind]

/-- C4: the map built by the merge loop assigns each key the first bucket
resolved for it, except that an `Unknown` is upgraded by the first later
non-Unknown bucket (`firstResolvedBucket`); a key holding a non-Unknown bucket
is never changed by any later rows; and concretely both
`[(K, Unknown), (K, Eu)]` and `[(K, Eu), (K, Unknown)]` build to `Eu` at `K`. -/
theorem merge_policy_first_resolved :
    (∀ rows k, buildGeoMap rows k = firstResolvedBucket rows k)
    ∧ (∀ rows more (k : List Nat) (b : GeoBucket), b ≠ GeoBucket.Unknown →
        buildGeoMap rows k = some b → buildGeoMap (rows ++ more) k = some b)
    ∧ (∀ K : List Nat,
        buildGeoMap [(K, GeoBucket.Unknown), (K, GeoBucket.Eu)] K = some GeoBucket.Eu
        ∧ buildGeoMap [(K, GeoBucket.Eu), (K, GeoBucket.Unknown)] K = some GeoBucket.Eu) := by
  refine ⟨buildGeoMap_eq_firstResolved, ?_, ?_⟩
  · intro rows more k b hb hbuild
    rw [buildGeoMap_eq_firstResolved] at hbuild ⊢
    have hoccapp : occurrences (rows ++ more) k = occurrences rows k ++ occurrences more k := by
      simp [occurrences, List.filter_append]
    by_cases hocc : occurrences rows k = []
    · rw [firstResolvedBucket, if_pos hocc] at hbuild
      exact Option.noConfusion hbuild
    · rw [firstResolvedBucket, if_neg hocc] at hbuild
      have hfind : (occurrences rows k).find? (fun x => x != GeoBucket.Unknown) = some b := by
        cases hf : (occurrences rows k).find? (fun x => x != GeoBucket.Unknown) with
        | none =>
          rw [hf] at hbuild
          simp only [Option.getD_none, Option.some.injEq] at hbuild
          exact absurd hbuild.symm hb
        | some c =>
          rw [hf] at hbuild
          simp only [Option.getD_some, Option.some.injEq] at hbuild
          rw [hbuild]
      have happne : occurrences (rows ++ more) k ≠ [] := by
        rw [hoccapp]
        intro happ
        exact hocc (List.append_eq_nil.mp happ).1
      rw [firstResolvedBucket, if_neg happne, hoccapp, List.find?_append, hfind]
      rfl
  · intro K
    constructor
    · rw [buildGeoMap_eq_firstResolved]
      simp [firstResolvedBucket, occurrences, List.filter_cons]
    · rw [buildGeoMap_eq_firstResolved]
      simp [firstResolvedBucket, occurrences, List.filter_cons]

/-- Witness for C4: with a concrete key, a key resolved to `Eu` keeps `Eu`
after appending a later `Unknown` row. -/
theorem merge_policy_first_resolved_witness :
    GeoBucket.Eu ≠ GeoBucket.Unknown
    ∧ buildGeoMap [(List.replicate 32 0, GeoBucket.Eu)] (List.replicate 32 0) =
        some GeoBucket.Eu
    ∧ buildGeoMap ([(List.replicate 32 0, GeoBucket.Eu)] ++
        [(List.replicate 32 0, GeoBucket.Unknown)]) (List.replicate 32 0) =
        some GeoBucket.Eu :=
  ⟨by decide, by decide,
    merge_policy_first_resolved.2.1 [(List.replicate 32 0, GeoBucket.Eu)]
      [(List.replicate 32 0, GeoBucket.Unknown)] (List.replicate 32 0) GeoBucket.Eu
      (by decide) (by decide)⟩

/-! ### String classification (geo-rules, GeoBucket::from_label, region_from_geo)

Rust `str::trim` removes Unicode whitespace and `to_ascii_uppercase` maps only
`a`-`z`; Lean's `Char.isWhitespace` (space, tab, CR, LF) and `Char.toUpper`
(ASCII-only) model these on the ASCII inputs these functions receive. -/

/-- `str::trim`: drop whitespace from both ends of the character sequence. -/
def trimAscii (cs : List Char) : List Char :=
  ((cs.dropWhile Char.isWhitespace).reverse.dropWhile Char.isWhitespace).reverse

/-- `input.trim().to_ascii_uppercase()`, the normalization shared by
`bucket_from_country_iso`, `bucket_from_geo_input` and `region_from_geo`. -/
def normalizeGeoText (s : String) : String :=
  ((trimAscii s.toList).map Char.toUpper).asString

/-- The EU country arm shared by `country_to_bucket`, `bucket_from_country_iso`
and `region_from_geo` (the literals coincide in all three sources). -/
def euCountries : List String :=
  ["DE", "FR", "NL", "GB", "CH", "SE", "NO", "PL", "ES", "IT"]

/-- The ME country arm of the same matches. -/
def meCountries : List String :=
  ["AE", "SA", "IL", "TR", "QA", "BH", "OM", "KW"]

/-- The NA country arm of the same matches. -/
def naCountries : List String :=
  ["US", "CA", "MX"]

/-- The APAC country arm of the same matches. -/
def apacCountries : List String :=
  ["JP", "KR", "SG", "HK", "TW", "IN", "AU", "NZ"]

/-- `GeoBucket::from_label` (src/geo-mapper/src/main.rs:35-45):
`value.trim().trim_start_matches('@').to_ascii_uppercase()` matched
case-insensitively against the five bucket labels.  `trim_start_matches`
strips every leading `@`. -/
def GeoBucket.fromLabel (value : String) : Option GeoBucket :=
  let normalized :=
    (((trimAscii value.toList).dropWhile (fun c => c = '@')).map Char.toUpper).asString
  if normalized = "UNKNOWN" then some .Unknown
  else if normalized = "EU" then some .Eu
  else if normalized = "NA" then some .Na
  else if normalized = "APAC" then some .Apac
  else if normalized = "ME" then some .Me
  else none

/-- `bucket_from_country_iso` (src/geo-rules/src/lib.rs:46-54). -/
def bucketFromCountryIso (isoCode : String) : GeoBucket :=
  let c := normalizeGeoText isoCode
  if c ∈ euCountries then .Eu
  else if c ∈ meCountries then .Me
  else if c ∈ naCountries then .Na
  else if c ∈ apacCountries then .Apac
  else .Unknown

/-- `bucket_from_geo_input` (src/geo-rules/src/lib.rs:56-65): match the
trimmed, ASCII-uppercased input against the four non-Unknown labels, else fall
back to `bucket_from_country_iso` on the normalized input. -/
def bucketFromGeoInput (input : String) : GeoBucket :=
  let normalized := normalizeGeoText input
  if normalized = "EU" then .Eu
  else if normalized = "NA" then .Na
  else if normalized = "APAC" then .Apac
  else if normalized = "ME" then .Me
  else bucketFromCountryIso normalized

/-- C6 counterexample: the claim says `bucket_from_geo_input` applies
`bucket_from_label` semantics including stripping a leading `@`, so that
`"@na"` resolves to `Na`; the code never strips `@` in this path, and
`bucket_from_geo_input("@na")` is `Unknown`, not `Na`. -/
theorem bucket_from_geo_input_at_na_counterexample :
    bucketFromGeoInput "@na" = GeoBucket.Unknown ∧ GeoBucket.Unknown ≠ GeoBucket.Na := by
  constructor
  · decide
  · decide

/-- First stage of the amended C6: a direct case-insensitive match of the
normalized input against EU/NA/APAC/ME — no `@`-stripping and no UNKNOWN arm. -/
def bucketLabelDirect (t : String) : Option GeoBucket :=
  if t = "EU" then some .Eu
  else if t = "NA" then some .Na
  else if t = "APAC" then some .Apac
  else if t = "ME" then some .Me
  else none

/-- C6 (amended): `bucket_from_geo_input` first matches the trimmed,
ASCII-uppercased input against {EU, NA, APAC, ME} without stripping `@`, and
only on no match falls back to `bucket_from_country_iso` on the normalized
input; hence `"@na"` resolves to `Unknown` there, while the mapper's
`GeoBucket::from_label` does strip leading `@` and maps `"@na"` to `Na`. -/
theorem bucket_from_geo_input_amended :
    (∀ s : String, bucketFromGeoInput s =
      (bucketLabelDirect (normalizeGeoText s)).getD (bucketFromCountryIso (normalizeGeoText s)))
    ∧ bucketFromGeoInput "@na" = GeoBucket.Unknown
    ∧ GeoBucket.fromLabel "@na" = some GeoBucket.Na := by
  refine ⟨?_, by decide, by decide⟩
  intro s
  unfold bucketFromGeoInput bucketLabelDirect
  generalize normalizeGeoText s = t
  dsimp only
  split_ifs <;> rfl

/-! ### Region selection (procedure) -/

/-- UTF-8 encoding of one character, modelling `str::as_bytes`. -/
def utf8EncodeChar (c : Char) : List Nat :=
  let n := c.toNat
  if n < 0x80 then [n]
  else if n < 0x800 then [0xC0 + n / 64, 0x80 + n % 64]
  else if n < 0x10000 then [0xE0 + n / 4096, 0x80 + n / 64 % 64, 0x80 + n % 64]
  else [0xF0 + n / 262144, 0x80 + n / 4096 % 64, 0x80 + n / 64 % 64, 0x80 + n % 64]

/-- The UTF-8 bytes of a string (`leader_pubkey.as_bytes()`). -/
def utf8Bytes (s : String) : List Nat :=
  s.toList.flatMap utf8EncodeChar

/-- `fnv1a64` (src/procedure/src/lib.rs:212-219): 64-bit FNV-1a over the
bytes, with `u64` wraparound made explicit as `% 2 ^ 64`. -/
def fnv1a64 (bytes : List Nat) : Nat :=
  bytes.foldl (fun hash b => ((hash ^^^ b) * 0x100000001b3) % 2 ^ 64) 0xcbf29ce484222325

/-- `fallback_region` (src/procedure/src/lib.rs:203-210). -/
def fallbackRegion (leaderPubkey : String) : ServerRegion :=
  match fnv1a64 (utf8Bytes leaderPubkey) % 4 with
  | 0 => .Dubai
  | 1 => .Frankfurt
  | 2 => .NewYork
  | _ => .Tokyo

/-- Reference FNV-1a computation following §4.5 of the spec word for word:
accumulator seeded `0xcbf29ce484222325`; for each byte, XOR the byte into the
accumulator then multiply by `0x100000001b3` with wraparound modulo `2 ^ 64`. -/
def fnv1a64Spec (bytes : List Nat) : Nat :=
  bytes.foldl (fun acc b => ((acc ^^^ b) * 0x100000001b3) % 2 ^ 64) 0xcbf29ce484222325

/-- Reference fallback-region selection following §4.5 of the spec: reduce the
hash modulo 4 and map {0 → Dubai, 1 → Frankfurt, 2 → NewYork, 3 → Tokyo}. -/
def fallbackRegionSpec (identifier : String) : ServerRegion :=
  match fnv1a64Spec (utf8Bytes identifier) % 4 with
  | 0 => .Dubai
  | 1 => .Frankfurt
  | 2 => .NewYork
  | _ => .Tokyo

/-- C7: `fallback_region` equals the reference FNV-1a computation of the spec
(seed `0xcbf29ce484222325`, per byte XOR then wrapping multiply by
`0x100000001b3`, reduce modulo 4, map to the four regions); being a function
of the identifier alone, the same identifier always yields the same region. -/
theorem fallback_region_fnv1a :
    (∀ identifier : String, fallbackRegion identifier = fallbackRegionSpec identifier)
    ∧ (∀ bytes : List Nat, fnv1a64 bytes =
        bytes.foldl (fun acc b => ((acc ^^^ b) * 0x100000001b3) % 2 ^ 64) 0xcbf29ce484222325) :=
  ⟨fun _ => rfl, fun _ => rfl⟩

/-- `region_from_geo` (src/procedure/src/lib.rs:191-201): classify the
trimmed, ASCII-uppercased geo text into a region via the same label/country
arms as §4.1. -/
def regionFromGeo (leaderGeo : String) : Option ServerRegion :=
  let t := normalizeGeoText leaderGeo
  if t = "EU" ∨ t ∈ euCountries then some .Frankfurt
  else if t = "ME" ∨ t ∈ meCountries then some .Dubai
  else if t = "NA" ∨ t ∈ naCountries then some .NewYork
  else if t = "APAC" ∨ t ∈ apacCountries then some .Tokyo
  else none

/-- `choose_region` (src/procedure/src/lib.rs:187-189):
`region_from_geo(leader_geo).unwrap_or_else(|| fallback_region(leader_pubkey))`. -/
def chooseRegion (leaderGeo leaderPubkey : String) : ServerRegion :=
  match regionFromGeo leaderGeo with
  | some r => r
  | none => fallbackRegion leaderPubkey

/-- The EU family of §4.5: the label `EU` together with the EU country set of
§4.1. -/
def euFamily : List String := "EU" :: euCountries

/-- The ME family of §4.5. -/
def meFamily : List String := "ME" :: meCountries

/-- The NA family of §4.5. -/
def naFamily : List String := "NA" :: naCountries

/-- The APAC family of §4.5. -/
def apacFamily : List String := "APAC" :: apacCountries

/-- Reference region classification following §4.5 of the spec: EU-family →
Frankfurt, ME-family → Dubai, NA-family → NewYork, APAC-family → Tokyo,
anything else (including Unknown/unrecognized) → none, applied to the
normalized label text. -/
def regionFromGeoSpec (s : String) : Option ServerRegion :=
  let t := normalizeGeoText s
  if t ∈ euFamily then some .Frankfurt
  else if t ∈ meFamily then some .Dubai
  else if t ∈ naFamily then some .NewYork
  else if t ∈ apacFamily then some .Tokyo
  else none

/-- C8: `choose_region(geo, identifier)` equals `region_from_geo(geo)` when
that is some region and `fallback_region(identifier)` otherwise; and
`region_from_geo` classifies exactly by the §4.5 family sets (EU-family →
Frankfurt, ME-family → Dubai, NA-family → NewYork, APAC-family → Tokyo,
everything else → none). -/
theorem choose_region_spec :
    (∀ geo identifier r, regionFromGeo geo = some r → chooseRegion geo identifier = r)
    ∧ (∀ geo identifier, regionFromGeo geo = none →
        chooseRegion geo identifier = fallbackRegion identifier)
    ∧ (∀ s : String, regionFromGeo s = regionFromGeoSpec s) := by
  refine ⟨?_, ?_, ?_⟩
  · intro geo identifier r hr
    simp [chooseRegion, hr]
  · intro geo identifier hr
    simp [chooseRegion, hr]
  · intro s
    simp only [regionFromGeo, regionFromGeoSpec, euFamily, meFamily, naFamily,
      apacFamily, List.mem_cons]

/-- Witness for C8: a geo label in the EU family routes to Frankfurt and the
`UNKNOWN` label falls back to the deterministic hash region. -/
theorem choose_region_spec_witness :
    regionFromGeo "EU" = some ServerRegion.Frankfurt
    ∧ chooseRegion "EU" "x" = ServerRegion.Frankfurt
    ∧ regionFromGeo "UNKNOWN" = none
    ∧ chooseRegion "UNKNOWN" "validator-x" = fallbackRegion "validator-x" :=
  ⟨by decide, choose_region_spec.1 "EU" "x" ServerRegion.Frankfurt (by decide),
    by decide, choose_region_spec.2.1 "UNKNOWN" "validator-x" (by decide)⟩

/-! ### Claim C10: leader selection

Rust compares `&str` by UTF-8 byte order, which coincides with codepoint
lexicographic order; `strCmp` embeds it as `cmpBytes` over the codepoints. -/

/-- The `Ord` instance on Rust `&str`, as lexicographic comparison of the
character codepoints. -/
def strCmp (a b : String) : Ordering :=
  cmpBytes (a.toList.map Char.toNat) (b.toList.map Char.toNat)

/-- The fold implementing `Iterator::min` over the filtered leader names. -/
def minByteLex? (l : List String) : Option String :=
  l.foldl
    (fun acc s =>
      match acc with
      | none => some s
      | some t => if strCmp s t = Ordering.lt then some s else some t)
    none

/-- The leaders whose slot list contains the queried slot index, in schedule
iteration order (`filter_map` + `contains` in the source). -/
def matchingLeaders (schedule : List (String × List Nat)) (slotIndex : Nat) : List String :=
  (schedule.filter (fun p => p.2.contains slotIndex)).map Prod.fst

/-- `find_leader_for_slot_index` (src/procedure/src/lib.rs:118-128): among the
schedule entries whose slot list contains the index, take the minimum leader
name; the schedule is the `HashMap` content in its (arbitrary) iteration
order. -/
def findLeaderForSlotIndex (schedule : List (String × List Nat)) (slotIndex : Nat) :
    Option String :=
  minByteLex? (matchingLeaders schedule slotIndex)

theorem strCmp_refl (a : String) : strCmp a a = Ordering.eq :=
  cmpBytes_refl _

theorem strCmp_eq_iff {a b : String} : strCmp a b = Ordering.eq ↔ a = b := by
  constructor
  · intro h
    have hlists := cmpBytes_eq_iff.mp h
    have hinj : Function.Injective Char.toNat := fun x y hxy => Char.ext (UInt32.ext hxy)
    have htl : a.toList = b.toList := List.map_injective_iff.mpr hinj hlists
    exact String.ext htl
  · intro h
    rw [h]
    exact strCmp_refl b

theorem strCmp_le_trans {a b c : String} (h1 : strCmp a b ≠ Ordering.gt)
    (h2 : strCmp b c ≠ Ordering.gt) : strCmp a c ≠ Ordering.gt := by
  cases hab : strCmp a b with
  | gt => exact absurd hab h1
  | eq =>
    have : a = b := strCmp_eq_iff.mp hab
    subst this
    exact h2
  | lt =>
    cases hbc : strCmp b c with
    | gt => exact absurd hbc h2
    | eq =>
      have : b = c := strCmp_eq_iff.mp hbc
      subst this
      simp [hab]
    | lt =>
      have : strCmp a c = Ordering.lt := cmpBytes_lt_trans hab hbc
      simp [this]

theorem strCmp_antisymm {a b : String} (h1 : strCmp a b ≠ Ordering.gt)
    (h2 : strCmp b a ≠ Ordering.gt) : a = b := by
  cases hab : strCmp a b with
  | gt => exact absurd hab h1
  | eq => exact strCmp_eq_iff.mp hab
  | lt =>
    have : strCmp b a = Ordering.gt := cmpBytes_gt_iff_lt.mpr hab
    exact absurd this h2

/-- The accumulator-passing spec of the `min` fold: starting from `some t`, it
returns a minimum of `t :: l`. -/
theorem minByteLex_aux_spec :
    ∀ (l : List String) (t : String),
      ∃ s, (l.foldl
          (fun acc s =>
            match acc with
            | none => some s
            | some t => if strCmp s t = Ordering.lt then some s else some t)
          (some t)) = some s
        ∧ s ∈ t :: l ∧ ∀ u ∈ t :: l, strCmp s u ≠ Ordering.gt := by
  intro l
  induction l with
  | nil =>
    intro t
    refine ⟨t, rfl, List.mem_cons_self t [], ?_⟩
    intro u hu
    rw [List.mem_singleton] at hu
    subst hu
    simp [strCmp_refl]
  | cons x l ih =>
    intro t
    simp only [List.foldl_cons]
    by_cases hx : strCmp x t = Ordering.lt
    · rw [if_pos hx]
      obtain ⟨s, hfold, hmem, hmin⟩ := ih x
      refine ⟨s, hfold, ?_, ?_⟩
      · rcases List.mem_cons.mp hmem with h | h
        · subst h; exact List.mem_cons_of_mem t (List.mem_cons_self s l)
        · exact List.mem_cons_of_mem t (List.mem_cons_of_mem x h)
      · intro u hu
        rcases List.mem_cons.mp hu with h | h
        · subst h
          have hsx : strCmp s x ≠ Ordering.gt := hmin x (List.mem_cons_self x l)
          have hxt : strCmp x u ≠ Ordering.gt := by simp [hx]
          exact strCmp_le_trans hsx hxt
        · exact hmin u h
    · rw [if_neg hx]
      obtain ⟨s, hfold, hmem, hmin⟩ := ih t
      refine ⟨s, hfold, ?_, ?_⟩
      · rcases List.mem_cons.mp hmem with h | h
        · subst h; exact List.mem_cons_self s (x :: l)
        · exact List.mem_cons_of_mem t (List.mem_cons_of_mem x h)
      · intro u hu
        rcases List.mem_cons.mp hu with h | h
        · subst h
          exact hmin u (List.mem_cons_self u l)
        · rcases List.mem_cons.mp h with h2 | h2
          · subst h2
            have hst : strCmp s t ≠ Ordering.gt := hmin t (List.mem_cons_self t l)
            have htu : strCmp t u ≠ Ordering.gt := by
              intro hgt
              exact hx (cmpBytes_gt_iff_lt.mp hgt)
            exact strCmp_le_trans hst htu
          · exact hmin u (List.mem_cons_of_mem t h2)

theorem minByteLex_some_iff (l : List String) (s : String) :
    minByteLex? l = some s ↔ s ∈ l ∧ ∀ t ∈ l, strCmp s t ≠ Ordering.gt := by
  cases l with
  | nil =>
    simp [minByteLex?]
  | cons x l =>
    have hfold : minByteLex? (x :: l) =
        l.foldl
          (fun acc s =>
            match acc with
            | none => some s
            | some t => if strCmp s t = Ordering.lt then some s else some t)
          (some x) := rfl
    obtain ⟨s0, hs0, hmem0, hmin0⟩ := minByteLex_aux_spec l x
    rw [hfold, hs0]
    constructor
    · intro h
      have : s0 = s := Option.some.inj h
      subst this
      exact ⟨hmem0, hmin0⟩
    · rintro ⟨hmem, hmin⟩
      have h1 : strCmp s0 s ≠ Ordering.gt := hmin0 s hmem
      have h2 : strCmp s s0 ≠ Ordering.gt := hmin s0 hmem0
      rw [strCmp_antisymm h1 h2]

theorem minByteLex_none_iff (l : List String) :
    minByteLex? l = none ↔ l = [] := by
  cases l with
  | nil => simp [minByteLex?]
  | cons x l =>
    obtain ⟨s0, hs0, _, _⟩ := minByteLex_aux_spec l x
    have hfold : minByteLex? (x :: l) =
        l.foldl
          (fun acc s =>
            match acc with
            | none => some s
            | some t => if strCmp s t = Ordering.lt then some s else some t)
          (some x) := rfl
    rw [hfold, hs0]
    simp

/-- C10: `find_leader_for_slot_index` returns the lexicographically smallest
identifier among those whose slot list contains the index (`none` when no
identifier matches), and the result is invariant under permuting the
schedule's iteration order, so two runs over the same logical schedule pick
the same leader. -/
theorem find_leader_lex_smallest :
    (∀ schedule slotIndex s,
      findLeaderForSlotIndex schedule slotIndex = some s ↔
        s ∈ matchingLeaders schedule slotIndex ∧
          ∀ t ∈ matchingLeaders schedule slotIndex, strCmp s t ≠ Ordering.gt)
    ∧ (∀ schedule slotIndex,
        findLeaderForSlotIndex schedule slotIndex = none ↔
          matchingLeaders schedule slotIndex = [])
    ∧ (∀ schedule schedule2 slotIndex, schedule.Perm schedule2 →
        findLeaderForSlotIndex schedule slotIndex =
          findLeaderForSlotIndex schedule2 slotIndex) := by
  refine ⟨fun schedule slotIndex s => minByteLex_some_iff _ s,
    fun schedule slotIndex => minByteLex_none_iff _, ?_⟩
  intro schedule schedule2 slotIndex hperm
  have hmperm : (matchingLeaders schedule slotIndex).Perm
      (matchingLeaders schedule2 slotIndex) := by
    unfold matchingLeaders
    exact (hperm.filter (fun p => p.2.contains slotIndex)).map Prod.fst
  cases hm : findLeaderForSlotIndex schedule slotIndex with
  | none =>
    have hempty : matchingLeaders schedule slotIndex = [] :=
      (minByteLex_none_iff _).mp hm
    have hempty2 : matchingLeaders schedule2 slotIndex = [] := by
      rw [hempty] at hmperm
      exact hmperm.symm.eq_nil
    exact ((minByteLex_none_iff _).mpr hempty2).symm
  | some s =>
    obtain ⟨hmem, hmin⟩ := (minByteLex_some_iff _ s).mp hm
    have hmem2 : s ∈ matchingLeaders schedule2 slotIndex := hmperm.mem_iff.mp hmem
    have hmin2 : ∀ t ∈ matchingLeaders schedule2 slotIndex, strCmp s t ≠ Ordering.gt :=
      fun t ht => hmin t (hmperm.mem_iff.mpr ht)
    exact ((minByteLex_some_iff _ s).mpr ⟨hmem2, hmin2⟩).symm

/-- Witness for C10 at the concrete two-entry schedule of the repository's own
test: both iteration orders pick `validator-a` for slot 8. -/
theorem find_leader_lex_smallest_witness :
    findLeaderForSlotIndex [("validator-z", [8]), ("validator-a", [8])] 8 =
        some "validator-a"
    ∧ ([("validator-z", [8]), ("validator-a", [8])] : List (String × List Nat)).Perm
        [("validator-a", [8]), ("validator-z", [8])]
    ∧ findLeaderForSlotIndex [("validator-z", [8]), ("validator-a", [8])] 8 =
        findLeaderForSlotIndex [("validator-a", [8]), ("validator-z", [8])] 8 :=
  ⟨(find_leader_lex_smallest.1 _ 8 "validator-a").mpr ⟨by decide, by decide⟩,
    List.Perm.swap _ _ [],
    find_leader_lex_smallest.2.2 _ _ 8 (List.Perm.swap _ _ [])⟩

/-! ### Claim C9: derive_leader_geo_and_region -/

/-- The base58 alphabet used by the external `bs58` crate. -/
def b58Alphabet : List Char :=
  "123456789ABCDEFGHJKLMNPQRSTUVWXYZabcdefghijkmnopqrstuvwxyz".toList

/-- The base58 digit value of one character, `none` for characters outside the
alphabet. -/
def b58DigitOf (c : Char) : Option Nat :=
  b58Alphabet.findIdx? (fun d => d = c)

/-- Big-endian byte representation of a number; the fuel bound is the digit
count, which always suffices because a `k`-digit base58 value is below
`256 ^ k`. -/
def natToBytesBE : Nat → Nat → List Nat
  | 0, _ => []
  | fuel + 1, n => if n = 0 then [] else natToBytesBE fuel (n / 256) ++ [n % 256]

/-- Model of the external `bs58` crate's `decode(..).into_vec()`: fail on any
character outside the alphabet, otherwise emit one zero byte per leading `1`
digit followed by the big-endian bytes of the base58 value. -/
def bs58Decode (s : String) : Option (List Nat) :=
  match s.toList.mapM b58DigitOf with
  | none => none
  | some digits =>
    let zeros := (digits.takeWhile (fun d => d = 0)).length
    let value := digits.foldl (fun n d => n * 58 + d) 0
    some (List.replicate zeros 0 ++ natToBytesBE digits.length value)

/-- `decode_leader_pubkey` (src/procedure/src/lib.rs:144-152): base58-decode,
then require exactly 32 bytes. -/
def decodeLeaderPubkey (leaderPubkey : String) : Option (List Nat) :=
  match bs58Decode leaderPubkey with
  | none => none
  | some decoded => if decoded.length = 32 then some decoded else none

/-- `geo_bucket_to_label` (src/procedure/src/lib.rs:177-185). -/
def geoBucketToLabel (bucket : Nat) : Option String :=
  if bucket = 1 then some "EU"
  else if bucket = 2 then some "NA"
  else if bucket = 3 then some "APAC"
  else if bucket = 4 then some "ME"
  else none

/-- `lookup_leader_geo_in_map` (src/procedure/src/lib.rs:138-142). -/
def lookupLeaderGeoInMap (geoMap : List Nat) (leaderPubkey : String) : Option String :=
  match decodeLeaderPubkey leaderPubkey with
  | none => none
  | some key =>
    match lookupGeoBucket geoMap key with
    | none => none
    | some bucket => geoBucketToLabel bucket

/-- `derive_leader_geo_and_region` (src/procedure/src/lib.rs:130-136). -/
def deriveLeaderGeoAndRegion (leaderPubkey : String) (geoMap : List Nat) :
    String × ServerRegion :=
  let leaderGeo := (lookupLeaderGeoInMap geoMap leaderPubkey).getD "UNKNOWN"
  (leaderGeo, chooseRegion leaderGeo leaderPubkey)

/-- C9: for every blob (well-formed or not) and every leader identifier,
`derive_leader_geo_and_region` returns a pair whose label is one of exactly
UNKNOWN/EU/NA/APAC/ME and whose region is one of the four regions; a stored
bucket byte of 0 or above 4 has no label and yields UNKNOWN with the
deterministic fallback region — never a failure propagated to the caller. -/
theorem derive_leader_geo_total :
    (∀ (geoMap : List Nat) (leader : String),
      ((deriveLeaderGeoAndRegion leader geoMap).1 = "UNKNOWN"
        ∨ (deriveLeaderGeoAndRegion leader geoMap).1 = "EU"
        ∨ (deriveLeaderGeoAndRegion leader geoMap).1 = "NA"
        ∨ (deriveLeaderGeoAndRegion leader geoMap).1 = "APAC"
        ∨ (deriveLeaderGeoAndRegion leader geoMap).1 = "ME")
      ∧ ((deriveLeaderGeoAndRegion leader geoMap).2 = ServerRegion.Dubai
        ∨ (deriveLeaderGeoAndRegion leader geoMap).2 = ServerRegion.Frankfurt
        ∨ (deriveLeaderGeoAndRegion leader geoMap).2 = ServerRegion.NewYork
        ∨ (deriveLeaderGeoAndRegion leader geoMap).2 = ServerRegion.Tokyo))
    ∧ (∀ bucket : Nat, bucket = 0 ∨ 4 < bucket → geoBucketToLabel bucket = none)
    ∧ (∀ (geoMap : List Nat) (leader : String) (key : List Nat) (bucket : Nat),
        decodeLeaderPubkey leader = some key →
        lookupGeoBucket geoMap key = some bucket →
        (bucket = 0 ∨ 4 < bucket) →
        (deriveLeaderGeoAndRegion leader geoMap).1 = "UNKNOWN"
        ∧ (deriveLeaderGeoAndRegion leader geoMap).2 = fallbackRegion leader) := by
  have hlabel : ∀ bucket s, geoBucketToLabel bucket = some s →
      s = "EU" ∨ s = "NA" ∨ s = "APAC" ∨ s = "ME" := by
    intro bucket s h
    unfold geoBucketToLabel at h
    split_ifs at h <;> simp only [Option.some.injEq] at h <;> subst h <;> simp
  have hnone : ∀ bucket : Nat, bucket = 0 ∨ 4 < bucket → geoBucketToLabel bucket = none := by
    intro bucket hb
    unfold geoBucketToLabel
    split_ifs <;> first | rfl | omega
  refine ⟨?_, hnone, ?_⟩
  · intro geoMap leader
    constructor
    · cases hgeo : lookupLeaderGeoInMap geoMap leader with
      | none => left; simp [deriveLeaderGeoAndRegion, hgeo]
      | some l =>
        have hl : l = "EU" ∨ l = "NA" ∨ l = "APAC" ∨ l = "ME" := by
          unfold lookupLeaderGeoInMap at hgeo
          cases hdec : decodeLeaderPubkey leader with
          | none => rw [hdec] at hgeo; exact Option.noConfusion hgeo
          | some key =>
            rw [hdec] at hgeo
            dsimp only at hgeo
            cases hlook : lookupGeoBucket geoMap key with
            | none =>
              rw [hlook] at hgeo
              exact Option.noConfusion hgeo
            | some bucket =>
              rw [hlook] at hgeo
              exact hlabel bucket l hgeo
        have hfst : (deriveLeaderGeoAndRegion leader geoMap).1 = l := by
          simp [deriveLeaderGeoAndRegion, hgeo]
        rcases hl with h | h | h | h <;> rw [hfst, h] <;> simp
    · cases hr : (deriveLeaderGeoAndRegion leader geoMap).2 <;> simp
  · intro geoMap leader key bucket hdec hlook hb
    have hgeo : lookupLeaderGeoInMap geoMap leader = none := by
      unfold lookupLeaderGeoInMap
      rw [hdec]
      dsimp only
      rw [hlook]
      exact hnone bucket hb
    have hfst : (deriveLeaderGeoAndRegion leader geoMap).1 = "UNKNOWN" := by
      simp [deriveLeaderGeoAndRegion, hgeo]
    refine ⟨hfst, ?_⟩
    have hregion : regionFromGeo "UNKNOWN" = none := by decide
    simp [deriveLeaderGeoAndRegion, hgeo, chooseRegion, hregion]

/-- Witness for C9: the leader string of 32 `1` characters decodes to the
all-zero key; against a blob that stores bucket byte 7 for that key, the
derivation reports UNKNOWN and the deterministic fallback region. -/
theorem derive_leader_geo_total_witness :
    decodeLeaderPubkey "11111111111111111111111111111111" = some (List.replicate 32 0)
    ∧ lookupGeoBucket (List.replicate 32 0 ++ [7]) (List.replicate 32 0) = some 7
    ∧ ((7 : Nat) = 0 ∨ 4 < (7 : Nat))
    ∧ (deriveLeaderGeoAndRegion "11111111111111111111111111111111"
        (List.replicate 32 0 ++ [7])).1 = "UNKNOWN"
    ∧ (deriveLeaderGeoAndRegion "11111111111111111111111111111111"
        (List.replicate 32 0 ++ [7])).2 =
          fallbackRegion "11111111111111111111111111111111" :=
  ⟨by decide, by decide, by decide,
    (derive_leader_geo_total.2.2 (List.replicate 32 0 ++ [7])
      "11111111111111111111111111111111" (List.replicate 32 0) 7
      (by decide) (by decide) (by decide)).1,
    (derive_leader_geo_total.2.2 (List.replicate 32 0 ++ [7])
      "11111111111111111111111111111111" (List.replicate 32 0) 7
      (by decide) (by decide) (by decide)).2⟩

/-! ### Claim C5: row-level error policy

`serde_json::Value` is modelled by `Json`; the std `IpAddr`/`SocketAddr`
parsers behind `extract_ip_from_socket` are external collaborators and enter
as a function parameter. -/

/-- Model of `serde_json::Value`. -/
inductive Json where
  | null
  | bool (b : Bool)
  | num (n : Int)
  | str (s : String)
  | arr (items : List Json)
  | obj (fields : List (String × Json))

/-- `Value::get(key)` on an object. -/
def Json.get? (j : Json) (key : String) : Option Json :=
  match j with
  | .obj fields => (fields.find? (fun f => f.1 == key)).map Prod.snd
  | _ => none

/-- `Value::as_str`. -/
def Json.asStr? : Json → Option String
  | .str s => some s
  | _ => none

/-- `Value::as_array`. -/
def Json.asArr? : Json → Option (List Json)
  | .arr items => some items
  | _ => none

/-- `GeoSource` (src/geo-mapper/src/main.rs:52-55), over an abstract IP
address type. -/
inductive GeoSource (IpA : Type) where
  | ip (addr : IpA)
  | bucket (b : GeoBucket)
  deriving DecidableEq

/-- `InputRow` (src/geo-mapper/src/main.rs:57-60). -/
structure InputRow (IpA : Type) where
  pubkey : List Nat
  geoSource : GeoSource IpA
  deriving DecidableEq

/-- `decode_pubkey` (src/geo-mapper/src/main.rs:365-377): base58-decode, then
require exactly 32 bytes (errors collapsed to `none`). -/
def decodePubkey (pubkey : String) : Option (List Nat) :=
  match bs58Decode pubkey with
  | none => none
  | some decoded => if decoded.length = 32 then some decoded else none

/-- The transport key preference order of `preferred_ip_from_node`
(src/geo-mapper/src/main.rs:283-293). -/
def transportKeys : List String := ["tpu_quic", "tpu", "gossip", "rpc"]

/-- `preferred_ip_from_node`: first transport whose socket string both exists
and yields an address through the external socket parser. -/
def preferredIpFromNode {IpA : Type} (extractIp : String → Option IpA) (node : Json) :
    Option IpA :=
  transportKeys.findSome? (fun key => ((node.get? key).bind Json.asStr?).bind extractIp)

/-- The per-node loop of `parse_cluster_nodes_response`
(src/geo-mapper/src/main.rs:259-278): a node missing a usable pubkey or
address contributes nothing (`continue`); a usable node contributes one IP
row. -/
def rowsOfNodes {IpA : Type} (extractIp : String → Option IpA) (nodes : List Json) :
    List (InputRow IpA) :=
  nodes.filterMap (fun node =>
    match (node.get? "pubkey").bind Json.asStr? with
    | none => none
    | some pk =>
      match decodePubkey pk with
      | none => none
      | some pkBytes =>
        match preferredIpFromNode extractIp node with
        | none => none
        | some addr => some ⟨pkBytes, GeoSource.ip addr⟩)

/-- `parse_cluster_nodes_response` (src/geo-mapper/src/main.rs:242-281), from
the parsed payload on: an `error` member or a missing `result` array is a
run-aborting error, the node loop itself never fails. -/
def parseClusterNodesResponse {IpA : Type} (extractIp : String → Option IpA)
    (payload : Json) : Except String (List (InputRow IpA)) :=
  if (payload.get? "error").isSome then
    Except.error "RPC getClusterNodes error"
  else
    match (payload.get? "result").bind Json.asArr? with
    | none => Except.error "RPC getClusterNodes response missing result array"
    | some nodes => Except.ok (rowsOfNodes extractIp nodes)

/-- `str::split(',')`: the segments between separators, empty segments
included. -/
def splitOnChar (sep : Char) : List Char → List (List Char)
  | [] => [[]]
  | c :: rest =>
    if c = sep then [] :: splitOnChar sep rest
    else
      match splitOnChar sep rest with
      | [] => [[c]]
      | h :: t => (c :: h) :: t

/-- `line.starts_with('#')`. -/
def startsWithHash : List Char → Bool
  | [] => false
  | c :: _ => c = '#'

/-- The per-line loop of `parse_rows` (src/geo-mapper/src/main.rs:317-363):
skip blank and `#` lines, require exactly two comma-separated columns, abort
with an error on an undecodable pubkey or an unusable geo source, otherwise
accumulate the row and continue. -/
def parseRowsAux {IpA : Type} (parseIp : String → Option IpA) :
    Nat → List (List Char) → Except String (List (InputRow IpA))
  | _, [] => Except.ok []
  | idx, rawLine :: rest =>
    let line := trimAscii rawLine
    if line.isEmpty || startsWithHash line then
      parseRowsAux parseIp (idx + 1) rest
    else
      match splitOnChar ',' line with
      | [] => Except.error ("line " ++ toString (idx + 1) ++ ": missing pubkey")
      | [_] => Except.error ("line " ++ toString (idx + 1) ++ ": missing geo source")
      | [pubkeyChars, sourceChars] =>
        match decodePubkey (trimAscii pubkeyChars).asString with
        | none => Except.error ("line " ++ toString (idx + 1) ++ ": invalid pubkey")
        | some pubkey =>
          match parseIp (trimAscii sourceChars).asString with
          | some addr =>
            (parseRowsAux parseIp (idx + 1) rest).map
              (fun rows => ⟨pubkey, GeoSource.ip addr⟩ :: rows)
          | none =>
            match GeoBucket.fromLabel (trimAscii sourceChars).asString with
            | some bucket =>
              (parseRowsAux parseIp (idx + 1) rest).map
                (fun rows => ⟨pubkey, GeoSource.bucket bucket⟩ :: rows)
            | none =>
              Except.error ("line " ++ toString (idx + 1) ++
                ": geo source must be an IP or one of UNKNOWN|EU|NA|APAC|ME")
      | _ =>
        Except.error ("line " ++ toString (idx + 1) ++
          ": expected exactly two comma-separated columns")

/-- `parse_rows` (src/geo-mapper/src/main.rs:317-363) over the input split
into lines. -/
def parseRows {IpA : Type} (parseIp : String → Option IpA) (input : String) :
    Except String (List (InputRow IpA)) :=
  parseRowsAux parseIp 0 (splitOnChar (Char.ofNat 10) input.toList)

/-- C5 counterexample: the claim says a structurally invalid row is skipped in
both parsing paths; on the override-file path, `parse_rows` turns the row
`"xx,EU"` (pubkey decodes to 2 bytes, not 32) into a run-aborting error. -/
theorem parse_rows_invalid_pubkey_counterexample :
    parseRows (fun _ => (none : Option Unit)) "xx,EU" =
      Except.error "line 1: invalid pubkey" := by
  rfl

/-- C5 (amended): rows failing structural validation are skipped, with
processing continuing and returning successfully, only on the RPC-row path
(`parse_cluster_nodes_response`): given a payload with no `error` member and a
`result` array, the node loop always returns `Ok`, and a node without usable
pubkey or address contributes nothing while later nodes are still processed.
The override-file path (`parse_rows`) instead returns an error that aborts the
run on any row whose pubkey does not decode to exactly 32 bytes. -/
theorem row_error_policy_amended (IpA : Type) (extractIp parseIp : String → Option IpA) :
    (∀ payload nodes, payload.get? "error" = none →
      (payload.get? "result").bind Json.asArr? = some nodes →
      parseClusterNodesResponse extractIp payload = Except.ok (rowsOfNodes extractIp nodes))
    ∧ (∀ node nodes,
        ((node.get? "pubkey").bind Json.asStr? = none
          ∨ (∃ pk, (node.get? "pubkey").bind Json.asStr? = some pk ∧ decodePubkey pk = none)
          ∨ preferredIpFromNode extractIp node = none) →
        rowsOfNodes extractIp (node :: nodes) = rowsOfNodes extractIp nodes)
    ∧ (∀ (idx : Nat) (rawLine : List Char) (rest : List (List Char)) pubkeyChars sourceChars,
        (trimAscii rawLine).isEmpty = false →
        startsWithHash (trimAscii rawLine) = false →
        splitOnChar ',' (trimAscii rawLine) = [pubkeyChars, sourceChars] →
        decodePubkey (trimAscii pubkeyChars).asString = none →
        parseRowsAux parseIp idx (rawLine :: rest) =
          Except.error ("line " ++ toString (idx + 1) ++ ": invalid pubkey")) := by
  refine ⟨?_, ?_, ?_⟩
  · intro payload nodes herr hres
    unfold parseClusterNodesResponse
    rw [herr]
    simp only [Option.isSome_none, Bool.false_eq_true, if_false]
    rw [hres]
  · intro node nodes h
    have hnode : (match (node.get? "pubkey").bind Json.asStr? with
        | none => none
        | some pk =>
          match decodePubkey pk with
          | none => none
          | some pkBytes =>
            match preferredIpFromNode extractIp node with
            | none => none
            | some addr => some (⟨pkBytes, GeoSource.ip addr⟩ : InputRow IpA)) = none := by
      rcases h with h1 | ⟨pk, hpk, hdec⟩ | h3
      · rw [h1]
      · rw [hpk]
        dsimp only
        rw [hdec]
      · cases hpk : (node.get? "pubkey").bind Json.asStr? with
        | none => rfl
        | some pk =>
          dsimp only
          cases hdec : decodePubkey pk with
          | none => rfl
          | some pkBytes =>
            dsimp only
            rw [h3]
    unfold rowsOfNodes
    rw [List.filterMap_cons]
    rw [hnode]
  · intro idx rawLine rest pubkeyChars sourceChars hempty hhash hsplit hdec
    unfold parseRowsAux
    dsimp only
    rw [hempty, hhash]
    simp only [Bool.or_self, Bool.false_eq_true, if_false]
    rw [hsplit]
    dsimp only
    rw [hdec]

/-- Witness for C5's amended claim: on a payload whose `result` array holds a
pubkey-less node followed by nothing, the RPC path succeeds with no rows, and
the override path aborts on the concrete bad line `xx,EU`. -/
theorem row_error_policy_amended_witness :
    (Json.obj [("result", Json.arr [Json.obj []])]).get? "error" = none
    ∧ ((Json.obj [("result", Json.arr [Json.obj []])]).get? "result").bind Json.asArr? =
        some [Json.obj []]
    ∧ parseClusterNodesResponse (fun _ => (none : Option Unit))
        (Json.obj [("result", Json.arr [Json.obj []])]) =
        Except.ok (rowsOfNodes (fun _ => none) [Json.obj []])
    ∧ (Json.obj []).get? "pubkey" = none
    ∧ rowsOfNodes (fun _ => (none : Option Unit)) [Json.obj []] = rowsOfNodes (fun _ => none) []
    ∧ parseRowsAux (fun _ => (none : Option Unit)) 0
        [['x', 'x', ',', 'E', 'U']] = Except.error "line 1: invalid pubkey" :=
  ⟨rfl, rfl,
    (row_error_policy_amended Unit (fun _ => none) (fun _ => none)).1
      (Json.obj [("result", Json.arr [Json.obj []])]) [Json.obj []] rfl rfl,
    rfl,
    (row_error_policy_amended Unit (fun _ => none) (fun _ => none)).2.1
      (Json.obj []) [] (Or.inl rfl),
    (row_error_policy_amended Unit (fun _ => none) (fun _ => none)).2.2 0
      ['x', 'x', ',', 'E', 'U'] [] ['x', 'x'] ['E', 'U'] (by decide) (by decide)
      (by decide) (by decide)⟩

end ZelaDemo
